import Mathlib

/-!
Verification of the core of the `playlist_ui` media-library indexer:
the directory scanner (`src/fs/file_tree.rs`), the tag-hierarchy
aggregator (`src/fs/media_metadata.rs`) and the persistent tree cache
(`src/db/sled_store.rs`), shallowly embedded in Lean.

Modelling conventions:
- A filesystem subtree is an `FsEntry` value.  `fs::read_dir` errors are
  absorbed by the model: a directory's `entries` list holds exactly the
  entries the walk successfully reads, so a missing or unreadable
  directory is a `dir` with an empty `entries` list, and entries whose
  read errors (skipped by `entries.flatten()` in the source) are simply
  not present in the list.
- `PathBuf` values are modelled as path-component lists (scanner) or
  plain strings (aggregator / cache), used only as opaque identities.
- The metadata extractor (`lofty`, an external crate wrapped by
  `extract_media_metadata`) is an external collaborator: an aggregation
  input is the list of files the `WalkDir` walk visits, in walk order,
  each paired with the `MediaMetadata` record the extractor returns for
  it.  A file whose extraction fails entirely carries the all-`none`
  record, exactly what `MediaMetadata::default()` produces.
-/

/-- The portion of a file name after its final dot, mirroring how
`Path::extension()` behaves on a plain file name: `none` when there is
no dot, and a leading dot alone (hidden files such as `.gitignore`)
does not begin an extension. -/
def afterLastDot : List Char → Option (List Char)
  | [] => none
  | c :: rest =>
    match afterLastDot rest with
    | some e => some e
    | none => if c = '.' then some rest else none

/-- `Path::extension()` for the file name `name`.  The first character
is never the extension-separating dot (a name starting with its only
dot has no extension), which `afterLastDot` on the tail captures. -/
def fileExtension (name : String) : Option String :=
  match name.data with
  | [] => none
  | _ :: rest =>
    match afterLastDot rest with
    | some e => some (String.mk e)
    | none => none

/-- One visible filesystem entry: a file or a directory together with
the entries a `read_dir` of it yields. -/
inductive FsEntry where
  | file (name : String)
  | dir (name : String) (entries : List FsEntry)

/-- `NodeType` from `src/fs/file_tree.rs`. -/
inductive NodeType where
  | file
  | directory
deriving DecidableEq

/-- `FileNode` from `src/fs/file_tree.rs`; `path` is the component list
from the scanned root down to this node. -/
inductive FileNode where
  | mk (name : String) (path : List String) (node_type : NodeType)
      (children : List FileNode) (is_expanded : Bool)

def FileNode.name : FileNode → String
  | .mk n _ _ _ _ => n

def FileNode.children : FileNode → List FileNode
  | .mk _ _ _ cs _ => cs

def FileNode.node_type : FileNode → NodeType
  | .mk _ _ t _ _ => t

/-- `str::to_lowercase` as used on extensions: per-character lowering
(extensions are ASCII, where Rust's Unicode lowering and the
per-character map agree). -/
def lowercase (s : String) : String :=
  String.mk (s.data.map Char.toLower)

/-- The scanner's per-file extension test (lines 60 and 69-70 of
`file_tree.rs`): both the allowed extensions and the file's extension
are lowercased before the membership test. -/
def ci_ext_match (allowed_extensions : List String) (name : String) : Bool :=
  match fileExtension name with
  | some ext => (allowed_extensions.map lowercase).contains (lowercase ext)
  | none => false

mutual

/-- The directory case of `scan_directory_with_expansion`: build the
children from the readable entries and return a node only when at least
one child survived; `is_root` becomes the node's `is_expanded`. -/
def scan_dir_node (name : String) (entries : List FsEntry)
    (allowed_extensions : List String) (path : List String)
    (is_root : Bool) : Option FileNode :=
  let children := scan_entries entries allowed_extensions (path ++ [name])
  if children.isEmpty then none
  else some (.mk name (path ++ [name]) .directory children is_root)

/-- The entry loop of `scan_directory_with_expansion`: matching files
become `File` nodes, subdirectories are scanned recursively and spliced
in only when the recursive result is `some` with non-empty children. -/
def scan_entries (entries : List FsEntry) (allowed_extensions : List String)
    (path : List String) : List FileNode :=
  match entries with
  | [] => []
  | .file n :: rest =>
    if ci_ext_match allowed_extensions n then
      .mk n (path ++ [n]) .file [] false
        :: scan_entries rest allowed_extensions path
    else
      scan_entries rest allowed_extensions path
  | .dir dn des :: rest =>
    match scan_dir_node dn des allowed_extensions path false with
    | some child =>
      if child.children.isEmpty then
        scan_entries rest allowed_extensions path
      else
        child :: scan_entries rest allowed_extensions path
    | none => scan_entries rest allowed_extensions path

end

/-- `scan_directory_with_expansion` from `src/fs/file_tree.rs`.
Scanning a non-directory (`read_dir` fails) yields no children and
hence `none`. -/
def scan_directory_with_expansion (e : FsEntry)
    (allowed_extensions : List String) (is_root : Bool) : Option FileNode :=
  match e with
  | .file _ => none
  | .dir n es => scan_dir_node n es allowed_extensions [] is_root

/-- `scan_directory` from `src/fs/file_tree.rs`. -/
def scan_directory (e : FsEntry) (allowed_extensions : List String) :
    Option FileNode :=
  scan_directory_with_expansion e allowed_extensions true

/-- Whether some file strictly beneath this entry matches the filter in
the scanner's sense; follows the spec's words "no file anywhere beneath
the root matches the extension filter". -/
def any_match_in (entries : List FsEntry) (allowed_extensions : List String) :
    Bool :=
  match entries with
  | [] => false
  | .file n :: rest =>
    ci_ext_match allowed_extensions n || any_match_in rest allowed_extensions
  | .dir _ des :: rest =>
    any_match_in des allowed_extensions || any_match_in rest allowed_extensions

/-- Spec-side predicate: the subtree rooted at `e` contains at least one
matching file (a file root has no files beneath it). -/
def matching_file_beneath (e : FsEntry) (allowed_extensions : List String) :
    Bool :=
  match e with
  | .file _ => false
  | .dir _ es => any_match_in es allowed_extensions

mutual

/-- Every `Directory` node in this tree has non-empty children. -/
def node_dirs_nonempty : FileNode → Bool
  | .mk _ _ t cs _ =>
    (match t with
     | .directory => !cs.isEmpty
     | .file => true) && nodes_dirs_nonempty cs

def nodes_dirs_nonempty : List FileNode → Bool
  | [] => true
  | n :: rest => node_dirs_nonempty n && nodes_dirs_nonempty rest

end

/-- Pruning invariant on an optional scan result (`none` trivially
satisfies it). -/
def opt_dirs_nonempty : Option FileNode → Bool
  | none => true
  | some n => node_dirs_nonempty n

/-- `MediaMetadata` from `src/fs/media_metadata.rs`; every field is
optional, absence meaning "tag missing". -/
structure MediaMetadata where
  creator : Option String
  album : Option String
  title : Option String
  genre : Option String
  track_num : Option Nat
  duration_ms : Option Nat
  image_uri : Option String
  identifier : Option String
  annotation : Option String

/-- `MediaMetadata::default()`: the all-absent record, also what
`extract_media_metadata` returns when reading the file fails. -/
def noTags : MediaMetadata :=
  { creator := none, album := none, title := none, genre := none,
    track_num := none, duration_ms := none, image_uri := none,
    identifier := none, annotation := none }

/-- One file visited by the aggregator's `WalkDir` walk: its file name
(final path component), its full path (an opaque identity) and the
metadata record the external extractor returns for it. -/
structure WalkedFile where
  file_name : String
  path : String
  metadata : MediaMetadata

/-- `TagTreeNode` from `src/gui/state.rs`. -/
inductive TagTreeNode where
  | mk (label : String) (children : List TagTreeNode)
      (file_paths : List String) (is_expanded : Bool)

def TagTreeNode.label : TagTreeNode → String
  | .mk l _ _ _ => l

def TagTreeNode.children : TagTreeNode → List TagTreeNode
  | .mk _ cs _ _ => cs

def TagTreeNode.file_paths : TagTreeNode → List String
  | .mk _ _ ps _ => ps

/-- `BTreeMap<String, _>`'s key order: `Ord` on Rust strings is
bytewise lexicographic on the UTF-8 encoding, which coincides with
lexicographic code-point order on the character lists. -/
def strKeyLt (a b : String) : Prop :=
  a.data < b.data

instance (a b : String) : Decidable (strKeyLt a b) := by
  unfold strKeyLt; infer_instance

/-- Sorted association list standing for `BTreeMap<String, V>`:
`btreeUpdate k f d m` is `m.entry(k).or_default()` followed by applying
`f` to the entry's value, keeping keys in ascending order. -/
def btreeUpdate {V : Type} (k : String) (f : V → V) (d : V) :
    List (String × V) → List (String × V)
  | [] => [(k, f d)]
  | (k₂, v) :: rest =>
    if strKeyLt k k₂ then (k, f d) :: (k₂, v) :: rest
    else if k = k₂ then (k₂, f v) :: rest
    else (k₂, v) :: btreeUpdate k f d rest

/-- The value `btreeUpdate` will apply `f` to: the stored value when the
key is present, the default otherwise (mirrors the `if` chain of
`btreeUpdate` exactly). -/
def findOrDefault {V : Type} (k : String) (d : V) :
    List (String × V) → V
  | [] => d
  | (k₂, v) :: rest =>
    if strKeyLt k k₂ then d
    else if k = k₂ then v
    else findOrDefault k d rest

abbrev TrackList := List (String × String)

abbrev AlbumMap := List (String × TrackList)

abbrev ArtistMap := List (String × AlbumMap)

abbrev GenreMap := List (String × ArtistMap)

/-- The aggregator's per-file extension test (`media_metadata.rs` lines
101-102 and 193-194): the extension must exist and be *exactly* equal to
some allowed entry — no case normalisation. -/
def file_matches_build_filter (allowed_extensions : List String)
    (f : WalkedFile) : Bool :=
  match fileExtension f.file_name with
  | some ext => allowed_extensions.any (fun ae => ae == ext)
  | none => false

/-- The body of `build_genre_tag_tree`'s walk loop for one file:
filter by exact extension, substitute placeholders for missing tags and
push `(title, path)` into the nested map. -/
def genre_insert_file (allowed_extensions : List String) (m : GenreMap)
    (f : WalkedFile) : GenreMap :=
  match fileExtension f.file_name with
  | some ext =>
    if allowed_extensions.any (fun ae => ae == ext) then
      let genre := f.metadata.genre.getD "Unknown"
      let artist := f.metadata.creator.getD "Unknown"
      let album := f.metadata.album.getD "Unknown"
      let title := f.metadata.title.getD f.file_name
      btreeUpdate genre
        (fun am => btreeUpdate artist
          (fun alm => btreeUpdate album
            (fun ts => ts ++ [(title, f.path)]) [] alm) [] am) [] m
    else m
  | none => m

/-- The body of `build_creator_tag_tree`'s walk loop for one file. -/
def creator_insert_file (allowed_extensions : List String) (m : ArtistMap)
    (f : WalkedFile) : ArtistMap :=
  match fileExtension f.file_name with
  | some ext =>
    if allowed_extensions.any (fun ae => ae == ext) then
      let artist := f.metadata.creator.getD "Unknown"
      let album := f.metadata.album.getD "Unknown"
      let title := f.metadata.title.getD f.file_name
      btreeUpdate artist
        (fun alm => btreeUpdate album
          (fun ts => ts ++ [(title, f.path)]) [] alm) [] m
    else m
  | none => m

/-- The track-level conversion loop: one leaf node per `(title, path)`
pair, each with a singleton `file_paths`. -/
def track_nodes (ts : TrackList) : List TagTreeNode :=
  ts.map (fun tp => .mk tp.1 [] [tp.2] false)

/-- The album-level conversion loop. -/
def album_nodes (alm : AlbumMap) : List TagTreeNode :=
  alm.map (fun av => .mk av.1 (track_nodes av.2) [] false)

/-- The artist-level conversion loop (also the root loop of
`build_creator_tag_tree`). -/
def artist_nodes (am : ArtistMap) : List TagTreeNode :=
  am.map (fun av => .mk av.1 (album_nodes av.2) [] false)

/-- The genre-level (root) conversion loop of `build_genre_tag_tree`. -/
def genre_nodes (gm : GenreMap) : List TagTreeNode :=
  gm.map (fun gv => .mk gv.1 (artist_nodes gv.2) [] false)

/-- `build_genre_tag_tree` from `src/fs/media_metadata.rs`: the walk of
all top directories is the `files` list (in walk order). -/
def build_genre_tag_tree (files : List WalkedFile)
    (allowed_extensions : List String) : List TagTreeNode :=
  genre_nodes (files.foldl (genre_insert_file allowed_extensions) [])

/-- `build_creator_tag_tree` from `src/fs/media_metadata.rs`. -/
def build_creator_tag_tree (files : List WalkedFile)
    (allowed_extensions : List String) : List TagTreeNode :=
  artist_nodes (files.foldl (creator_insert_file allowed_extensions) [])

/-- Strict ascending chain in the case-sensitive (code-point) string
order — the iteration order of a `BTreeMap<String, _>`. -/
def labels_ascending : List String → Bool
  | [] => true
  | [_] => true
  | a :: b :: rest => decide (strKeyLt a b) && labels_ascending (b :: rest)

/-- Pairwise-distinct labels. -/
def labels_pairwise_distinct : List String → Bool
  | [] => true
  | a :: rest => !(rest.contains a) && labels_pairwise_distinct rest

mutual

/-- Sibling labels are strictly ascending at *every* level of the
forest, the track/leaf level included. -/
def forest_sorted_all_levels (ns : List TagTreeNode) : Bool :=
  labels_ascending (ns.map TagTreeNode.label) && forest_each_sorted ns

def forest_each_sorted : List TagTreeNode → Bool
  | [] => true
  | .mk _ cs _ _ :: rest => forest_sorted_all_levels cs && forest_each_sorted rest

end

mutual

/-- Sibling labels are strictly ascending at the topmost `d` levels of
the forest (`d = 3` covers genre, creator and album in the genre tree;
`d = 2` covers creator and album in the creator tree). -/
def forest_sorted_to_depth : Nat → List TagTreeNode → Bool
  | 0, _ => true
  | d + 1, ns =>
    labels_ascending (ns.map TagTreeNode.label) && forest_each_sorted_to_depth d ns

/-- Companion of `forest_sorted_to_depth` over each sibling's children. -/
def forest_each_sorted_to_depth : Nat → List TagTreeNode → Bool
  | _, [] => true
  | d, .mk _ cs _ _ :: rest =>
    forest_sorted_to_depth d cs && forest_each_sorted_to_depth d rest

end

mutual

/-- Sibling labels are pairwise distinct at *every* level of the forest,
the track/leaf level included. -/
def forest_distinct_all_levels (ns : List TagTreeNode) : Bool :=
  labels_pairwise_distinct (ns.map TagTreeNode.label) && forest_each_distinct ns

def forest_each_distinct : List TagTreeNode → Bool
  | [] => true
  | .mk _ cs _ _ :: rest =>
    forest_distinct_all_levels cs && forest_each_distinct rest

end

mutual

/-- Sibling labels are pairwise distinct at the topmost `d` levels. -/
def forest_distinct_to_depth : Nat → List TagTreeNode → Bool
  | 0, _ => true
  | d + 1, ns =>
    labels_pairwise_distinct (ns.map TagTreeNode.label) &&
      forest_each_distinct_to_depth d ns

/-- Companion of `forest_distinct_to_depth` over each sibling's children. -/
def forest_each_distinct_to_depth : Nat → List TagTreeNode → Bool
  | _, [] => true
  | d, .mk _ cs _ _ :: rest =>
    forest_distinct_to_depth d cs && forest_each_distinct_to_depth d rest

end

mutual

/-- Leaf/track shape: a childless node carries exactly one file path and
a node with children carries none. -/
def node_track_shape : TagTreeNode → Bool
  | .mk _ [] ps _ => ps.length == 1
  | .mk _ (c :: cs) ps _ => ps.isEmpty && forest_track_shape (c :: cs)

def forest_track_shape : List TagTreeNode → Bool
  | [] => true
  | n :: rest => node_track_shape n && forest_track_shape rest

end

mutual

/-- Total number of stored file paths in a subtree. -/
def node_path_count : TagTreeNode → Nat
  | .mk _ cs ps _ => ps.length + forest_path_count cs

def forest_path_count : List TagTreeNode → Nat
  | [] => 0
  | n :: rest => node_path_count n + forest_path_count rest

end

/-- Sum of `g` over the values of an association list. -/
def vals_sum {V : Type} (g : V → Nat) : List (String × V) → Nat
  | [] => 0
  | (_, v) :: rest => g v + vals_sum g rest

/-- Tracks stored in an `AlbumMap`. -/
def album_map_tracks (alm : AlbumMap) : Nat :=
  vals_sum (fun ts => ts.length) alm

/-- Tracks stored in an `ArtistMap`. -/
def artist_map_tracks (am : ArtistMap) : Nat :=
  vals_sum album_map_tracks am

/-- Tracks stored in a `GenreMap`. -/
def genre_map_tracks (gm : GenreMap) : Nat :=
  vals_sum artist_map_tracks gm

/-- Modelled from the spec: the stable binary encoding of the cache
(§6 "Binary encoding") — the source delegates it to the external
`bincode` crate (`encode_to_vec` with the standard configuration),
whose derive-generated code is not part of `src/`.  The spec requires
only a fixed, self-consistent encoding that round-trips a forest
exactly; here a byte is a `Nat` and naturals use a base-128
continuation encoding. -/
def encNat (n : Nat) : List Nat :=
  if n < 128 then [n]
  else (n % 128 + 128) :: encNat (n / 128)
termination_by n
decreasing_by exact Nat.div_lt_self (by omega) (by omega)

/-- Decoder for `encNat`; fails on truncated input. -/
def decNat : List Nat → Option (Nat × List Nat)
  | [] => none
  | b :: rest =>
    if b < 128 then some (b, rest)
    else
      match decNat rest with
      | some (m, rest₂) => some (m * 128 + (b - 128), rest₂)
      | none => none

/-- Character-sequence encoding: each code point as `encNat`. -/
def encChars : List Char → List Nat
  | [] => []
  | c :: rest => encNat c.toNat ++ encChars rest

/-- Decoder for exactly `n` characters. -/
def decChars : Nat → List Nat → Option (List Char × List Nat)
  | 0, bs => some ([], bs)
  | n + 1, bs =>
    match decNat bs with
    | some (c, bs₂) =>
      match decChars n bs₂ with
      | some (cs, bs₃) => some (Char.ofNat c :: cs, bs₃)
      | none => none
    | none => none

/-- Length-prefixed string encoding. -/
def encString (s : String) : List Nat :=
  encNat s.data.length ++ encChars s.data

/-- Decoder for `encString`. -/
def decString (bs : List Nat) : Option (String × List Nat) :=
  match decNat bs with
  | some (n, bs₂) =>
    match decChars n bs₂ with
    | some (cs, bs₃) => some (String.mk cs, bs₃)
    | none => none
  | none => none

/-- Concatenated string encodings. -/
def encStrings : List String → List Nat
  | [] => []
  | s :: rest => encString s ++ encStrings rest

/-- Length-prefixed string-list encoding (a `Vec<PathBuf>`). -/
def encStringList (l : List String) : List Nat :=
  encNat l.length ++ encStrings l

/-- Decoder for exactly `n` strings. -/
def decStringsN : Nat → List Nat → Option (List String × List Nat)
  | 0, bs => some ([], bs)
  | n + 1, bs =>
    match decString bs with
    | some (s, bs₂) =>
      match decStringsN n bs₂ with
      | some (ss, bs₃) => some (s :: ss, bs₃)
      | none => none
    | none => none

/-- Decoder for `encStringList`. -/
def decStringList (bs : List Nat) : Option (List String × List Nat) :=
  match decNat bs with
  | some (n, bs₂) => decStringsN n bs₂
  | none => none

/-- Single-byte boolean encoding. -/
def encBool (b : Bool) : List Nat :=
  [if b then 1 else 0]

/-- Decoder for `encBool`; any byte other than 0 or 1 is invalid. -/
def decBool : List Nat → Option (Bool × List Nat)
  | 0 :: rest => some (false, rest)
  | 1 :: rest => some (true, rest)
  | _ => none

mutual

/-- Node encoding: the four fields of `TagTreeNode` in declaration
order, children as a length-prefixed sequence. -/
def encNode : TagTreeNode → List Nat
  | .mk l cs ps e =>
    encString l ++ (encNat cs.length ++ encNodes cs) ++ encStringList ps
      ++ encBool e

/-- Concatenated node encodings. -/
def encNodes : List TagTreeNode → List Nat
  | [] => []
  | n :: rest => encNode n ++ encNodes rest

end

mutual

/-- Fuelled decoder for one node. -/
def decNode (fuel : Nat) (bs : List Nat) :
    Option (TagTreeNode × List Nat) :=
  match fuel with
  | 0 => none
  | fuel' + 1 =>
    match decString bs with
    | none => none
    | some (l, bs₁) =>
      match decNat bs₁ with
      | none => none
      | some (n, bs₂) =>
        match decNodesN fuel' n bs₂ with
        | none => none
        | some (cs, bs₃) =>
          match decStringList bs₃ with
          | none => none
          | some (ps, bs₄) =>
            match decBool bs₄ with
            | none => none
            | some (e, bs₅) => some (.mk l cs ps e, bs₅)
termination_by (fuel, 0)

/-- Fuelled decoder for exactly `n` nodes. -/
def decNodesN (fuel : Nat) (n : Nat) (bs : List Nat) :
    Option (List TagTreeNode × List Nat) :=
  match n with
  | 0 => some ([], bs)
  | n' + 1 =>
    match decNode fuel bs with
    | none => none
    | some (x, bs₁) =>
      match decNodesN fuel n' bs₁ with
      | none => none
      | some (xs, bs₂) => some (x :: xs, bs₂)
termination_by (fuel, n + 1)

end

/-- Forest (a `Vec<TagTreeNode>`) encoding: length then nodes. -/
def encodeForest (ns : List TagTreeNode) : List Nat :=
  encNat ns.length ++ encNodes ns

/-- Forest decoder (`decode_from_slice`: trailing bytes are ignored,
the decoded value is kept); the input length bounds the recursion
depth. -/
def decodeForest (bs : List Nat) : Option (List TagTreeNode) :=
  match decNat bs with
  | none => none
  | some (n, bs₂) =>
    match decNodesN bs.length n bs₂ with
    | some (ns, _) => some ns
    | none => none

/-- The embedded key-value store behind `SledStore` (`sled::Db`): an
association list from keys to byte blobs, first binding wins. -/
structure SledStore where
  kv : List (String × List Nat)

/-- `Db::get`. -/
def SledStore.get (s : SledStore) (k : String) : Option (List Nat) :=
  s.kv.lookup k

/-- `Db::insert`: overwrites any prior value at the key. -/
def SledStore.put (s : SledStore) (k : String) (v : List Nat) : SledStore :=
  ⟨(k, v) :: s.kv⟩

/-- `Db::remove`. -/
def SledStore.remove (s : SledStore) (k : String) : SledStore :=
  ⟨s.kv.filter (fun p => !(p.1 == k))⟩

/-- `SledStore::save_genre_tag_tree` from `src/db/sled_store.rs`. -/
def save_genre_tag_tree (s : SledStore) (roots : List TagTreeNode) :
    SledStore :=
  s.put "tag_tree" (encodeForest roots)

/-- `SledStore::load_genre_tag_tree`: a missing key or a decode failure
both yield `none`. -/
def load_genre_tag_tree (s : SledStore) : Option (List TagTreeNode) :=
  (s.get "tag_tree").bind decodeForest

/-- `SledStore::clear_genre_tree`. -/
def clear_genre_tree (s : SledStore) : SledStore :=
  s.remove "tag_tree"

/-- `SledStore::save_creator_tag_tree` from `src/db/sled_store.rs`. -/
def save_creator_tag_tree (s : SledStore) (roots : List TagTreeNode) :
    SledStore :=
  s.put "creator_tag_tree" (encodeForest roots)

/-- `SledStore::load_creator_tag_tree`. -/
def load_creator_tag_tree (s : SledStore) : Option (List TagTreeNode) :=
  (s.get "creator_tag_tree").bind decodeForest

/-- Modelled from the spec: `clear(kind)` for the creator kind (§4.3).
The source implements a clear only for the genre kind
(`clear_genre_tree`); the creator-kind clear is the same removal on the
creator key. -/
def clear_creator_tree (s : SledStore) : SledStore :=
  s.remove "creator_tag_tree"

mutual

/-- Structural size used to justify decoder fuel. -/
def nodeSize : TagTreeNode → Nat
  | .mk _ cs _ _ => 1 + nodesSize cs

/-- Structural size of a node list. -/
def nodesSize : List TagTreeNode → Nat
  | [] => 0
  | n :: rest => 1 + nodeSize n + nodesSize rest

end

/-- Concrete walked file: title tag "b", no other tags. -/
def trackTitleB : WalkedFile :=
  ⟨"b.mp3", "/music/b.mp3", { noTags with title := some "b" }⟩

/-- Concrete walked file: title tag "a", no other tags. -/
def trackTitleA : WalkedFile :=
  ⟨"a.mp3", "/music/a.mp3", { noTags with title := some "a" }⟩

/-- Concrete walked file: title tag "t", no other tags. -/
def dupTitleOne : WalkedFile :=
  ⟨"one.mp3", "/music/one.mp3", { noTags with title := some "t" }⟩

/-- Concrete walked file: the same title tag "t", a different path. -/
def dupTitleTwo : WalkedFile :=
  ⟨"two.mp3", "/music/two.mp3", { noTags with title := some "t" }⟩

/-- Concrete walked file with an upper-case extension and no tags. -/
def fileAMP3 : WalkedFile :=
  ⟨"A.MP3", "/lib/A.MP3", noTags⟩

/-- Concrete walked file with no tags at all (a file whose metadata
extraction failed entirely). -/
def fileYMP3 : WalkedFile :=
  ⟨"y.mp3", "/lib/y.mp3", noTags⟩

/-- A store with no record at all. -/
def emptyStore : SledStore := ⟨[]⟩

/-- A store holding undecodable garbage under both hierarchy keys
(`[251]` is a truncated length prefix, rejected by `decNat`). -/
def garbageStore : SledStore :=
  ⟨[("tag_tree", [251]), ("creator_tag_tree", [251])]⟩

/-- Working invariant of an `AlbumMap` during aggregation: ascending
keys, and every accumulated track vector non-empty. -/
def AlbumMapInv (alm : AlbumMap) : Prop :=
  List.Pairwise strKeyLt (alm.map Prod.fst) ∧ ∀ p ∈ alm, p.2 ≠ []

/-- Working invariant of an `ArtistMap` during aggregation. -/
def ArtistMapInv (am : ArtistMap) : Prop :=
  List.Pairwise strKeyLt (am.map Prod.fst) ∧
    ∀ p ∈ am, p.2 ≠ [] ∧ AlbumMapInv p.2

/-- Working invariant of a `GenreMap` during aggregation. -/
def GenreMapInv (gm : GenreMap) : Prop :=
  List.Pairwise strKeyLt (gm.map Prod.fst) ∧
    ∀ p ∈ gm, p.2 ≠ [] ∧ ArtistMapInv p.2

theorem strKeyLt_irrefl (a : String) : ¬ strKeyLt a a := by
  unfold strKeyLt
  exact lt_irrefl _

theorem strKeyLt_trans {a b c : String} (h₁ : strKeyLt a b)
    (h₂ : strKeyLt b c) : strKeyLt a c := by
  unfold strKeyLt at *
  exact lt_trans h₁ h₂

theorem strKeyLt_ne {a b : String} (h : strKeyLt a b) : a ≠ b := by
  intro he
  subst he
  exact strKeyLt_irrefl a h

theorem strKeyLt_total {a b : String} (h₁ : ¬ strKeyLt a b) (h₂ : a ≠ b) :
    strKeyLt b a := by
  unfold strKeyLt at *
  rcases lt_trichotomy a.data b.data with h | h | h
  · exact absurd h h₁
  · cases a
    cases b
    simp only at h
    subst h
    exact absurd rfl h₂
  · exact h

theorem labels_ascending_cons {a b : String} {rest : List String} :
    labels_ascending (a :: b :: rest) = true ↔
      strKeyLt a b ∧ labels_ascending (b :: rest) = true := by
  simp [labels_ascending]

theorem labels_ascending_pairwise :
    ∀ l : List String, labels_ascending l = true ↔ List.Pairwise strKeyLt l
  | [] => by simp [labels_ascending]
  | [a] => by simp [labels_ascending]
  | a :: b :: rest => by
    rw [labels_ascending_cons, labels_ascending_pairwise (b :: rest)]
    constructor
    · rintro ⟨hab, hp⟩
      refine List.Pairwise.cons ?_ hp
      intro x hx
      rcases List.mem_cons.mp hx with h | h
      · subst h; exact hab
      · exact strKeyLt_trans hab (List.rel_of_pairwise_cons hp h)
    · intro hp
      exact ⟨List.rel_of_pairwise_cons hp (List.mem_cons_self b rest),
        hp.of_cons⟩

theorem labels_distinct_of_pairwise :
    ∀ l : List String, List.Pairwise strKeyLt l →
      labels_pairwise_distinct l = true
  | [], _ => rfl
  | a :: rest, hp => by
    simp only [labels_pairwise_distinct, Bool.and_eq_true, Bool.not_eq_true']
    constructor
    · simp only [List.contains, List.elem_eq_mem, decide_eq_false_iff_not]
      intro hmem
      exact strKeyLt_ne (List.rel_of_pairwise_cons hp hmem) rfl
    · exact labels_distinct_of_pairwise rest hp.of_cons

theorem btreeUpdate_ne_nil {V : Type} (k : String) (f : V → V) (d : V)
    (m : List (String × V)) : btreeUpdate k f d m ≠ [] := by
  match m with
  | [] => simp [btreeUpdate]
  | (k₂, v) :: rest =>
    simp only [btreeUpdate]
    split
    · simp
    · split <;> simp

theorem btreeUpdate_keys_sub {V : Type} (k : String) (f : V → V) (d : V) :
    ∀ (m : List (String × V)) (p : String × V), p ∈ btreeUpdate k f d m →
      p.1 = k ∨ p.1 ∈ m.map Prod.fst
  | [], p, hp => by
    simp only [btreeUpdate, List.mem_singleton] at hp
    subst hp
    exact Or.inl rfl
  | (k₂, v) :: rest, p, hp => by
    simp only [btreeUpdate] at hp
    split at hp
    · rcases List.mem_cons.mp hp with h | h
      · subst h; exact Or.inl rfl
      · exact Or.inr (List.mem_map_of_mem Prod.fst h)
    · split at hp
      · rcases List.mem_cons.mp hp with h | h
        · subst h; simp
        · simp [List.mem_map_of_mem Prod.fst h]
      · rcases List.mem_cons.mp hp with h | h
        · subst h; simp
        · rcases btreeUpdate_keys_sub k f d rest p h with h₂ | h₂
          · exact Or.inl h₂
          · simp only [List.map_cons, List.mem_cons]
            exact Or.inr (Or.inr h₂)

theorem btreeUpdate_pairwise {V : Type} (k : String) (f : V → V) (d : V) :
    ∀ m : List (String × V), List.Pairwise strKeyLt (m.map Prod.fst) →
      List.Pairwise strKeyLt ((btreeUpdate k f d m).map Prod.fst)
  | [], _ => by simp [btreeUpdate]
  | (k₂, v) :: rest, hp => by
    simp only [List.map_cons] at hp
    simp only [btreeUpdate]
    split
    · rename_i hlt
      simp only [List.map_cons]
      refine List.Pairwise.cons ?_ hp
      intro x hx
      rcases List.mem_cons.mp hx with h | h
      · subst h; exact hlt
      · exact strKeyLt_trans hlt (List.rel_of_pairwise_cons hp h)
    · split
      · rename_i heq
        subst heq
        simpa using hp
      · rename_i hlt heq
        have hgt : strKeyLt k₂ k := strKeyLt_total hlt heq
        simp only [List.map_cons]
        refine List.Pairwise.cons ?_
          (btreeUpdate_pairwise k f d rest hp.of_cons)
        intro x hx
        rcases List.mem_map.mp hx with ⟨p, hpmem, hpx⟩
        rcases btreeUpdate_keys_sub k f d rest p hpmem with h | h
        · rw [← hpx, h]; exact hgt
        · exact List.rel_of_pairwise_cons hp (hpx ▸ h)

theorem btreeUpdate_vals {V : Type} (P : V → Prop) (k : String) (f : V → V)
    (d : V) :
    ∀ m : List (String × V), (∀ p ∈ m, P p.2) → P (f d) →
      (∀ p ∈ m, P (f p.2)) → ∀ p ∈ btreeUpdate k f d m, P p.2
  | [], _, hfd, _ => by
    intro p hp
    simp only [btreeUpdate, List.mem_singleton] at hp
    subst hp
    exact hfd
  | (k₂, v) :: rest, hm, hfd, hfm => by
    intro p hp
    simp only [btreeUpdate] at hp
    split at hp
    · rcases List.mem_cons.mp hp with h | h
      · subst h; exact hfd
      · exact hm p h
    · split at hp
      · rcases List.mem_cons.mp hp with h | h
        · subst h; exact hfm (k₂, v) (List.mem_cons_self _ _)
        · exact hm p (List.mem_cons_of_mem _ h)
      · rcases List.mem_cons.mp hp with h | h
        · subst h; exact hm (k₂, v) (List.mem_cons_self _ _)
        · exact btreeUpdate_vals P k f d rest
            (fun q hq => hm q (List.mem_cons_of_mem _ hq)) hfd
            (fun q hq => hfm q (List.mem_cons_of_mem _ hq)) p h

theorem vals_sum_btreeUpdate {V : Type} (g : V → Nat) (k : String)
    (f : V → V) (d : V) (hd : g d = 0) :
    ∀ m : List (String × V),
      vals_sum g (btreeUpdate k f d m) + g (findOrDefault k d m) =
        vals_sum g m + g (f (findOrDefault k d m))
  | [] => by simp [btreeUpdate, findOrDefault, vals_sum, hd]
  | (k₂, v) :: rest => by
    simp only [btreeUpdate, findOrDefault]
    split
    · simp only [vals_sum, hd]
      omega
    · split
      · simp only [vals_sum]
        omega
      · simp only [vals_sum]
        have h := vals_sum_btreeUpdate g k f d hd rest
        omega

theorem scan_entries_isEmpty :
    ∀ (es : List FsEntry) (allowed path : List String),
      (scan_entries es allowed path).isEmpty = !(any_match_in es allowed)
  | [], allowed, path => by
    simp [scan_entries, any_match_in]
  | .file n :: rest, allowed, path => by
    rw [scan_entries, any_match_in]
    by_cases h : ci_ext_match allowed n
    · simp [h]
    · simp [h, scan_entries_isEmpty rest allowed path]
  | .dir dn des :: rest, allowed, path => by
    rw [scan_entries, any_match_in]
    have hdes := scan_entries_isEmpty des allowed (path ++ [dn])
    have hrest := scan_entries_isEmpty rest allowed path
    simp only [scan_dir_node]
    by_cases h : (scan_entries des allowed (path ++ [dn])).isEmpty
    · rw [h] at hdes
      have ha : any_match_in des allowed = false := by
        simpa using hdes.symm
      simp [h, ha, hrest]
    · have h' : (scan_entries des allowed (path ++ [dn])).isEmpty = false :=
        Bool.eq_false_iff.mpr h
      rw [h'] at hdes
      have ha : any_match_in des allowed = true := by
        simpa using hdes.symm
      simp [h', ha, FileNode.children]

theorem scan_dir_node_isSome (n : String) (es : List FsEntry)
    (allowed path : List String) (is_root : Bool) :
    (scan_dir_node n es allowed path is_root).isSome =
      any_match_in es allowed := by
  have hes := scan_entries_isEmpty es allowed (path ++ [n])
  simp only [scan_dir_node]
  by_cases h : (scan_entries es allowed (path ++ [n])).isEmpty
  · rw [h] at hes
    have ha : any_match_in es allowed = false := by
      simpa using hes.symm
    simp [h, ha]
  · have h' : (scan_entries es allowed (path ++ [n])).isEmpty = false :=
      Bool.eq_false_iff.mpr h
    rw [h'] at hes
    have ha : any_match_in es allowed = true := by
      simpa using hes.symm
    simp [h', ha]

theorem scan_entries_dirs_nonempty :
    ∀ (es : List FsEntry) (allowed path : List String),
      nodes_dirs_nonempty (scan_entries es allowed path) = true
  | [], allowed, path => by
    simp [scan_entries, nodes_dirs_nonempty]
  | .file n :: rest, allowed, path => by
    rw [scan_entries]
    by_cases h : ci_ext_match allowed n
    · simp [h, nodes_dirs_nonempty, node_dirs_nonempty,
        scan_entries_dirs_nonempty rest allowed path]
    · simp [h, scan_entries_dirs_nonempty rest allowed path]
  | .dir dn des :: rest, allowed, path => by
    rw [scan_entries]
    simp only [scan_dir_node]
    by_cases h : (scan_entries des allowed (path ++ [dn])).isEmpty
    · simp [h, scan_entries_dirs_nonempty rest allowed path]
    · have h' : (scan_entries des allowed (path ++ [dn])).isEmpty = false :=
        Bool.eq_false_iff.mpr h
      simp [h', FileNode.children, nodes_dirs_nonempty, node_dirs_nonempty,
        scan_entries_dirs_nonempty des allowed (path ++ [dn]),
        scan_entries_dirs_nonempty rest allowed path]

theorem scan_dir_node_dirs_nonempty (n : String) (es : List FsEntry)
    (allowed path : List String) (is_root : Bool) :
    opt_dirs_nonempty (scan_dir_node n es allowed path is_root) = true := by
  simp only [scan_dir_node]
  by_cases h : (scan_entries es allowed (path ++ [n])).isEmpty
  · simp [h, opt_dirs_nonempty]
  · have h' : (scan_entries es allowed (path ++ [n])).isEmpty = false :=
      Bool.eq_false_iff.mpr h
    simp [h', opt_dirs_nonempty, node_dirs_nonempty,
      scan_entries_dirs_nonempty es allowed (path ++ [n])]

/-- Claim C1, counterexample: scanning a directory containing only the
file `A.RS` with filter `["rs"]` does *not* yield `None` — the scan
matches extensions case-insensitively (both sides are lowercased), so
the file is matched and returned. -/
theorem scan_case_insensitive_counterexample :
    scan_directory (FsEntry.dir "d" [FsEntry.file "A.RS"]) ["rs"] =
      some (.mk "d" ["d"] .directory
        [.mk "A.RS" ["d", "A.RS"] .file [] false] true) := by
  simp [scan_directory, scan_directory_with_expansion, scan_dir_node,
    scan_entries]
  decide

/-- Claim C1 (amended): `scan_directory` matches a file's extension
case-insensitively — a single-file directory scan succeeds exactly when
the lowercased extension occurs among the lowercased filter entries; in
particular scanning a directory containing only `A.RS` with filter
`["rs"]` yields a tree containing that file. -/
theorem scan_single_file_case_insensitive (dn n : String)
    (allowed_extensions : List String) :
    (scan_directory (FsEntry.dir dn [FsEntry.file n])
        allowed_extensions).isSome = ci_ext_match allowed_extensions n ∧
    (scan_directory (FsEntry.dir "d" [FsEntry.file "A.RS"]) ["rs"]).isSome
      = true := by
  constructor
  · simp [scan_directory, scan_directory_with_expansion,
      scan_dir_node_isSome, any_match_in]
  · simp [scan_directory, scan_directory_with_expansion,
      scan_dir_node_isSome, any_match_in]
    decide

/-- Claim C3: `scan_directory` returns `None` iff no file beneath the
root matches the filter (stated as `isSome` equal to the match
predicate; a missing or unreadable root is a directory whose visible
entry list is empty, and a non-directory root scans to `None`), and
every `Directory` node present in a result has non-empty children. -/
theorem scan_none_iff_no_match_and_pruned (e : FsEntry)
    (allowed_extensions : List String) :
    (scan_directory e allowed_extensions).isSome =
        matching_file_beneath e allowed_extensions ∧
      opt_dirs_nonempty (scan_directory e allowed_extensions) = true := by
  cases e with
  | file n =>
    simp [scan_directory, scan_directory_with_expansion,
      matching_file_beneath, opt_dirs_nonempty]
  | dir n es =>
    constructor
    · simp [scan_directory, scan_directory_with_expansion,
        matching_file_beneath, scan_dir_node_isSome]
    · simp [scan_directory, scan_directory_with_expansion,
        scan_dir_node_dirs_nonempty]

theorem albumInsert_inv (album title path : String) (alm : AlbumMap)
    (h : AlbumMapInv alm) :
    AlbumMapInv (btreeUpdate album (fun ts => ts ++ [(title, path)]) []
      alm) := by
  constructor
  · exact btreeUpdate_pairwise _ _ _ alm h.1
  · exact btreeUpdate_vals (fun ts => ts ≠ []) _ _ _ alm h.2 (by simp)
      (fun q _ => by simp)

theorem artistInsert_inv (artist album title path : String)
    (am : ArtistMap) (h : ArtistMapInv am) :
    ArtistMapInv (btreeUpdate artist
      (fun alm => btreeUpdate album (fun ts => ts ++ [(title, path)]) [] alm)
      [] am) := by
  constructor
  · exact btreeUpdate_pairwise _ _ _ am h.1
  · refine btreeUpdate_vals (fun alm => alm ≠ [] ∧ AlbumMapInv alm)
      _ _ _ am h.2 ?_ ?_
    · exact ⟨btreeUpdate_ne_nil _ _ _ _,
        albumInsert_inv album title path [] ⟨List.Pairwise.nil, by simp⟩⟩
    · intro q hq
      exact ⟨btreeUpdate_ne_nil _ _ _ _,
        albumInsert_inv album title path q.2 (h.2 q hq).2⟩

theorem genreInsert_inv (genre artist album title path : String)
    (gm : GenreMap) (h : GenreMapInv gm) :
    GenreMapInv (btreeUpdate genre
      (fun am => btreeUpdate artist
        (fun alm => btreeUpdate album (fun ts => ts ++ [(title, path)]) []
          alm) [] am)
      [] gm) := by
  constructor
  · exact btreeUpdate_pairwise _ _ _ gm h.1
  · refine btreeUpdate_vals (fun am => am ≠ [] ∧ ArtistMapInv am)
      _ _ _ gm h.2 ?_ ?_
    · exact ⟨btreeUpdate_ne_nil _ _ _ _,
        artistInsert_inv artist album title path []
          ⟨List.Pairwise.nil, by simp⟩⟩
    · intro q hq
      exact ⟨btreeUpdate_ne_nil _ _ _ _,
        artistInsert_inv artist album title path q.2 (h.2 q hq).2⟩

theorem genre_insert_file_inv (allowed_extensions : List String)
    (m : GenreMap) (f : WalkedFile) (h : GenreMapInv m) :
    GenreMapInv (genre_insert_file allowed_extensions m f) := by
  unfold genre_insert_file
  cases fileExtension f.file_name with
  | none => exact h
  | some ext =>
    by_cases hc : allowed_extensions.any (fun ae => ae == ext)
    · simp only [hc, if_true]
      exact genreInsert_inv _ _ _ _ _ m h
    · simp only [hc, if_false]
      exact h

theorem creator_insert_file_inv (allowed_extensions : List String)
    (m : ArtistMap) (f : WalkedFile) (h : ArtistMapInv m) :
    ArtistMapInv (creator_insert_file allowed_extensions m f) := by
  unfold creator_insert_file
  cases fileExtension f.file_name with
  | none => exact h
  | some ext =>
    by_cases hc : allowed_extensions.any (fun ae => ae == ext)
    · simp only [hc, if_true]
      exact artistInsert_inv _ _ _ _ m h
    · simp only [hc, if_false]
      exact h

theorem fold_genre_inv (allowed_extensions : List String) :
    ∀ (files : List WalkedFile) (m : GenreMap), GenreMapInv m →
      GenreMapInv (files.foldl (genre_insert_file allowed_extensions) m)
  | [], m, h => h
  | f :: files, m, h =>
    fold_genre_inv allowed_extensions files _
      (genre_insert_file_inv allowed_extensions m f h)

theorem fold_creator_inv (allowed_extensions : List String) :
    ∀ (files : List WalkedFile) (m : ArtistMap), ArtistMapInv m →
      ArtistMapInv (files.foldl (creator_insert_file allowed_extensions) m)
  | [], m, h => h
  | f :: files, m, h =>
    fold_creator_inv allowed_extensions files _
      (creator_insert_file_inv allowed_extensions m f h)

theorem album_tracks_insert (album title path : String) (alm : AlbumMap) :
    album_map_tracks
        (btreeUpdate album (fun ts => ts ++ [(title, path)]) [] alm) =
      album_map_tracks alm + 1 := by
  have h := vals_sum_btreeUpdate (fun ts : TrackList => ts.length) album
    (fun ts => ts ++ [(title, path)]) [] rfl alm
  simp only [List.length_append, List.length_singleton] at h
  unfold album_map_tracks
  omega

theorem artist_tracks_insert (artist album title path : String)
    (am : ArtistMap) :
    artist_map_tracks (btreeUpdate artist
        (fun alm => btreeUpdate album (fun ts => ts ++ [(title, path)]) []
          alm) [] am) =
      artist_map_tracks am + 1 := by
  have h := vals_sum_btreeUpdate album_map_tracks artist
    (fun alm => btreeUpdate album (fun ts => ts ++ [(title, path)]) [] alm)
    [] rfl am
  rw [album_tracks_insert album title path
    (findOrDefault artist [] am)] at h
  unfold artist_map_tracks
  omega

theorem genre_tracks_insert (genre artist album title path : String)
    (gm : GenreMap) :
    genre_map_tracks (btreeUpdate genre
        (fun am => btreeUpdate artist
          (fun alm => btreeUpdate album (fun ts => ts ++ [(title, path)])
            [] alm) [] am) [] gm) =
      genre_map_tracks gm + 1 := by
  have h := vals_sum_btreeUpdate artist_map_tracks genre
    (fun am => btreeUpdate artist
      (fun alm => btreeUpdate album (fun ts => ts ++ [(title, path)]) [] alm)
      [] am) [] rfl gm
  rw [artist_tracks_insert artist album title path
    (findOrDefault genre [] gm)] at h
  unfold genre_map_tracks
  omega

theorem genre_step_tracks (allowed_extensions : List String) (m : GenreMap)
    (f : WalkedFile) :
    genre_map_tracks (genre_insert_file allowed_extensions m f) =
      genre_map_tracks m +
        (if file_matches_build_filter allowed_extensions f then 1 else 0) := by
  unfold genre_insert_file file_matches_build_filter
  cases fileExtension f.file_name with
  | none => simp
  | some ext =>
    by_cases hc : allowed_extensions.any (fun ae => ae == ext)
    · simp [hc, genre_tracks_insert]
    · simp [hc]

theorem creator_step_tracks (allowed_extensions : List String)
    (m : ArtistMap) (f : WalkedFile) :
    artist_map_tracks (creator_insert_file allowed_extensions m f) =
      artist_map_tracks m +
        (if file_matches_build_filter allowed_extensions f then 1 else 0) := by
  unfold creator_insert_file file_matches_build_filter
  cases fileExtension f.file_name with
  | none => simp
  | some ext =>
    by_cases hc : allowed_extensions.any (fun ae => ae == ext)
    · simp [hc, artist_tracks_insert]
    · simp [hc]

theorem fold_genre_tracks (allowed_extensions : List String) :
    ∀ (files : List WalkedFile) (m : GenreMap),
      genre_map_tracks (files.foldl (genre_insert_file allowed_extensions) m)
        = genre_map_tracks m +
          (files.filter (file_matches_build_filter allowed_extensions)).length
  | [], m => by simp
  | f :: files, m => by
    rw [List.foldl_cons,
      fold_genre_tracks allowed_extensions files
        (genre_insert_file allowed_extensions m f),
      genre_step_tracks allowed_extensions m f, List.filter_cons]
    by_cases hf : file_matches_build_filter allowed_extensions f
    · simp [hf]
      omega
    · simp [hf]

theorem fold_creator_tracks (allowed_extensions : List String) :
    ∀ (files : List WalkedFile) (m : ArtistMap),
      artist_map_tracks
          (files.foldl (creator_insert_file allowed_extensions) m)
        = artist_map_tracks m +
          (files.filter (file_matches_build_filter allowed_extensions)).length
  | [], m => by simp
  | f :: files, m => by
    rw [List.foldl_cons,
      fold_creator_tracks allowed_extensions files
        (creator_insert_file allowed_extensions m f),
      creator_step_tracks allowed_extensions m f, List.filter_cons]
    by_cases hf : file_matches_build_filter allowed_extensions f
    · simp [hf]
      omega
    · simp [hf]

theorem track_nodes_labels (ts : TrackList) :
    (track_nodes ts).map TagTreeNode.label = ts.map Prod.fst := by
  simp [track_nodes, List.map_map, TagTreeNode.label]

theorem album_nodes_labels (alm : AlbumMap) :
    (album_nodes alm).map TagTreeNode.label = alm.map Prod.fst := by
  simp [album_nodes, List.map_map, TagTreeNode.label]

theorem artist_nodes_labels (am : ArtistMap) :
    (artist_nodes am).map TagTreeNode.label = am.map Prod.fst := by
  simp [artist_nodes, List.map_map, TagTreeNode.label]

theorem genre_nodes_labels (gm : GenreMap) :
    (genre_nodes gm).map TagTreeNode.label = gm.map Prod.fst := by
  simp [genre_nodes, List.map_map, TagTreeNode.label]

theorem track_nodes_count :
    ∀ ts : TrackList, forest_path_count (track_nodes ts) = ts.length
  | [] => by simp [track_nodes, forest_path_count]
  | tp :: rest => by
    have h := track_nodes_count rest
    unfold track_nodes at h ⊢
    simp only [List.map_cons, forest_path_count, node_path_count,
      List.length_singleton, List.length_cons, List.length_nil]
    omega

theorem album_nodes_count :
    ∀ alm : AlbumMap,
      forest_path_count (album_nodes alm) = album_map_tracks alm
  | [] => by simp [album_nodes, forest_path_count, album_map_tracks, vals_sum]
  | av :: rest => by
    have h := album_nodes_count rest
    have ht := track_nodes_count av.2
    unfold album_nodes album_map_tracks at h ⊢
    simp only [List.map_cons, forest_path_count, node_path_count,
      List.length_nil, vals_sum]
    omega

theorem artist_nodes_count :
    ∀ am : ArtistMap,
      forest_path_count (artist_nodes am) = artist_map_tracks am
  | [] => by
    simp [artist_nodes, forest_path_count, artist_map_tracks, vals_sum]
  | av :: rest => by
    have h := artist_nodes_count rest
    have ha := album_nodes_count av.2
    unfold artist_nodes artist_map_tracks at h ⊢
    simp only [List.map_cons, forest_path_count, node_path_count,
      List.length_nil, vals_sum]
    omega

theorem genre_nodes_count :
    ∀ gm : GenreMap,
      forest_path_count (genre_nodes gm) = genre_map_tracks gm
  | [] => by simp [genre_nodes, forest_path_count, genre_map_tracks, vals_sum]
  | gv :: rest => by
    have h := genre_nodes_count rest
    have ha := artist_nodes_count gv.2
    unfold genre_nodes genre_map_tracks at h ⊢
    simp only [List.map_cons, forest_path_count, node_path_count,
      List.length_nil, vals_sum]
    omega

theorem track_nodes_shape :
    ∀ ts : TrackList, forest_track_shape (track_nodes ts) = true
  | [] => by simp [track_nodes, forest_track_shape]
  | tp :: rest => by
    have h := track_nodes_shape rest
    unfold track_nodes at h ⊢
    simp only [List.map_cons, forest_track_shape, node_track_shape,
      List.length_singleton, Bool.and_eq_true, beq_self_eq_true]
    exact ⟨trivial, h⟩

theorem album_nodes_shape :
    ∀ alm : AlbumMap, (∀ p ∈ alm, p.2 ≠ []) →
      forest_track_shape (album_nodes alm) = true
  | [], _ => by simp [album_nodes, forest_track_shape]
  | av :: rest, h => by
    have hrest := album_nodes_shape rest
      (fun p hp => h p (List.mem_cons_of_mem _ hp))
    have hhd := h av (List.mem_cons_self _ _)
    have hts := track_nodes_shape av.2
    simp only [album_nodes, List.map_cons, forest_track_shape,
      Bool.and_eq_true]
    refine ⟨?_, by simpa [album_nodes] using hrest⟩
    cases hav : av.2 with
    | nil => exact absurd hav hhd
    | cons tp ts₂ =>
      rw [hav] at hts
      unfold track_nodes at hts ⊢
      simp only [List.map_cons] at hts ⊢
      simp only [node_track_shape, List.isEmpty_nil, Bool.true_and]
      exact hts

theorem artist_nodes_shape :
    ∀ am : ArtistMap, (∀ p ∈ am, p.2 ≠ [] ∧ AlbumMapInv p.2) →
      forest_track_shape (artist_nodes am) = true
  | [], _ => by simp [artist_nodes, forest_track_shape]
  | av :: rest, h => by
    have hrest := artist_nodes_shape rest
      (fun p hp => h p (List.mem_cons_of_mem _ hp))
    have hhd := h av (List.mem_cons_self _ _)
    have halb := album_nodes_shape av.2 hhd.2.2
    simp only [artist_nodes, List.map_cons, forest_track_shape,
      Bool.and_eq_true]
    refine ⟨?_, by simpa [artist_nodes] using hrest⟩
    cases hav : av.2 with
    | nil => exact absurd hav hhd.1
    | cons alv alm₂ =>
      rw [hav] at halb
      unfold album_nodes at halb ⊢
      simp only [List.map_cons] at halb ⊢
      simp only [node_track_shape, List.isEmpty_nil, Bool.true_and]
      exact halb

theorem genre_nodes_shape :
    ∀ gm : GenreMap, (∀ p ∈ gm, p.2 ≠ [] ∧ ArtistMapInv p.2) →
      forest_track_shape (genre_nodes gm) = true
  | [], _ => by simp [genre_nodes, forest_track_shape]
  | gv :: rest, h => by
    have hrest := genre_nodes_shape rest
      (fun p hp => h p (List.mem_cons_of_mem _ hp))
    have hhd := h gv (List.mem_cons_self _ _)
    have hart := artist_nodes_shape gv.2 hhd.2.2
    simp only [genre_nodes, List.map_cons, forest_track_shape,
      Bool.and_eq_true]
    refine ⟨?_, by simpa [genre_nodes] using hrest⟩
    cases hav : gv.2 with
    | nil => exact absurd hav hhd.1
    | cons av am₂ =>
      rw [hav] at hart
      unfold artist_nodes at hart ⊢
      simp only [List.map_cons] at hart ⊢
      simp only [node_track_shape, List.isEmpty_nil, Bool.true_and]
      exact hart

theorem each_sorted_depth_zero :
    ∀ ns : List TagTreeNode, forest_each_sorted_to_depth 0 ns = true
  | [] => by simp [forest_each_sorted_to_depth]
  | .mk l cs ps e :: rest => by
    simp [forest_each_sorted_to_depth, forest_sorted_to_depth,
      each_sorted_depth_zero rest]

theorem album_nodes_sorted (alm : AlbumMap)
    (h : List.Pairwise strKeyLt (alm.map Prod.fst)) :
    forest_sorted_to_depth 1 (album_nodes alm) = true := by
  rw [forest_sorted_to_depth]
  simp only [Bool.and_eq_true]
  exact ⟨by rw [album_nodes_labels]; exact (labels_ascending_pairwise _).mpr h,
    each_sorted_depth_zero _⟩

theorem artist_each_sorted :
    ∀ am : ArtistMap, (∀ p ∈ am, AlbumMapInv p.2) →
      forest_each_sorted_to_depth 1 (artist_nodes am) = true
  | [], _ => by simp [artist_nodes, forest_each_sorted_to_depth]
  | av :: rest, h => by
    simp only [artist_nodes, List.map_cons, forest_each_sorted_to_depth,
      Bool.and_eq_true]
    refine ⟨?_, ?_⟩
    · exact album_nodes_sorted av.2 (h av (List.mem_cons_self _ _)).1
    · have hrest := artist_each_sorted rest
        (fun p hp => h p (List.mem_cons_of_mem _ hp))
      simpa [artist_nodes] using hrest

theorem artist_nodes_sorted (am : ArtistMap) (h : ArtistMapInv am) :
    forest_sorted_to_depth 2 (artist_nodes am) = true := by
  rw [forest_sorted_to_depth]
  simp only [Bool.and_eq_true]
  refine ⟨?_, ?_⟩
  · rw [artist_nodes_labels]
    exact (labels_ascending_pairwise _).mpr h.1
  · exact artist_each_sorted am (fun p hp => (h.2 p hp).2)

theorem genre_each_sorted :
    ∀ gm : GenreMap, (∀ p ∈ gm, ArtistMapInv p.2) →
      forest_each_sorted_to_depth 2 (genre_nodes gm) = true
  | [], _ => by simp [genre_nodes, forest_each_sorted_to_depth]
  | gv :: rest, h => by
    simp only [genre_nodes, List.map_cons, forest_each_sorted_to_depth,
      Bool.and_eq_true]
    refine ⟨?_, ?_⟩
    · exact artist_nodes_sorted gv.2 (h gv (List.mem_cons_self _ _))
    · have hrest := genre_each_sorted rest
        (fun p hp => h p (List.mem_cons_of_mem _ hp))
      simpa [genre_nodes] using hrest

theorem genre_nodes_sorted (gm : GenreMap) (h : GenreMapInv gm) :
    forest_sorted_to_depth 3 (genre_nodes gm) = true := by
  rw [forest_sorted_to_depth]
  simp only [Bool.and_eq_true]
  refine ⟨?_, ?_⟩
  · rw [genre_nodes_labels]
    exact (labels_ascending_pairwise _).mpr h.1
  · exact genre_each_sorted gm (fun p hp => (h.2 p hp).2)

mutual

theorem sorted_to_depth_distinct :
    ∀ (d : Nat) (ns : List TagTreeNode),
      forest_sorted_to_depth d ns = true →
        forest_distinct_to_depth d ns = true
  | 0, ns, _ => by simp [forest_distinct_to_depth]
  | d + 1, ns, h => by
    rw [forest_sorted_to_depth] at h
    rw [forest_distinct_to_depth]
    simp only [Bool.and_eq_true] at h ⊢
    exact ⟨labels_distinct_of_pairwise _
        ((labels_ascending_pairwise _).mp h.1),
      each_sorted_distinct d ns h.2⟩
termination_by d ns => (d, sizeOf ns)

theorem each_sorted_distinct :
    ∀ (d : Nat) (ns : List TagTreeNode),
      forest_each_sorted_to_depth d ns = true →
        forest_each_distinct_to_depth d ns = true
  | _, [], _ => by simp [forest_each_distinct_to_depth]
  | d, .mk l cs ps e :: rest, h => by
    rw [forest_each_sorted_to_depth] at h
    rw [forest_each_distinct_to_depth]
    simp only [Bool.and_eq_true] at h ⊢
    exact ⟨sorted_to_depth_distinct d cs h.1,
      each_sorted_distinct d rest h.2⟩
termination_by d ns => (d, sizeOf ns)

end

/-- Claim C2, counterexample: with two matching files walked in the
order title-"b" then title-"a" under identical genre/creator/album,
both builders keep the track/leaf siblings in walk order `["b", "a"]`,
which is not ascending — sibling sorting does *not* hold at the
track/leaf level. -/
theorem build_leaf_level_not_sorted_counterexample :
    forest_sorted_all_levels
        (build_genre_tag_tree [trackTitleB, trackTitleA] ["mp3"]) = false ∧
      forest_sorted_all_levels
        (build_creator_tag_tree [trackTitleB, trackTitleA] ["mp3"]) =
          false := by
  constructor
  · show forest_sorted_all_levels
      [.mk "Unknown" [.mk "Unknown" [.mk "Unknown"
        [.mk "b" [] ["/music/b.mp3"] false, .mk "a" [] ["/music/a.mp3"]
          false] [] false] [] false] [] false] = false
    simp [forest_sorted_all_levels, forest_each_sorted, labels_ascending,
      strKeyLt]
    decide
  · show forest_sorted_all_levels
      [.mk "Unknown" [.mk "Unknown"
        [.mk "b" [] ["/music/b.mp3"] false, .mk "a" [] ["/music/a.mp3"]
          false] [] false] [] false] = false
    simp [forest_sorted_all_levels, forest_each_sorted, labels_ascending,
      strKeyLt]
    decide

/-- Claim C2 (amended): in the forests returned by
`build_genre_tag_tree` and `build_creator_tag_tree`, sibling nodes at
every *category* level (genre, creator and album; not the track/leaf
level, whose siblings keep walk order) are sorted in ascending
case-sensitive label order; both builders are functions of the walked
file list, so an unchanged walk and unchanged metadata reproduce the
same forest. -/
theorem build_category_levels_sorted (files : List WalkedFile)
    (allowed_extensions : List String) :
    forest_sorted_to_depth 3
        (build_genre_tag_tree files allowed_extensions) = true ∧
      forest_sorted_to_depth 2
        (build_creator_tag_tree files allowed_extensions) = true := by
  constructor
  · exact genre_nodes_sorted _
      (fold_genre_inv allowed_extensions files []
        ⟨List.Pairwise.nil, by simp⟩)
  · exact artist_nodes_sorted _
      (fold_creator_inv allowed_extensions files []
        ⟨List.Pairwise.nil, by simp⟩)

/-- Claim C9, counterexample: two matching files with the same title
under identical category values give two leaf siblings both labelled
`"t"` — sibling labels are *not* unique at the track/leaf level. -/
theorem duplicate_title_sibling_labels_counterexample :
    forest_distinct_all_levels
        (build_genre_tag_tree [dupTitleOne, dupTitleTwo] ["mp3"]) =
          false ∧
      forest_distinct_all_levels
        (build_creator_tag_tree [dupTitleOne, dupTitleTwo] ["mp3"]) =
          false := by
  constructor
  · show forest_distinct_all_levels
      [.mk "Unknown" [.mk "Unknown" [.mk "Unknown"
        [.mk "t" [] ["/music/one.mp3"] false, .mk "t" [] ["/music/two.mp3"]
          false] [] false] [] false] [] false] = false
    simp [forest_distinct_all_levels, forest_each_distinct,
      labels_pairwise_distinct, TagTreeNode.label]
  · show forest_distinct_all_levels
      [.mk "Unknown" [.mk "Unknown"
        [.mk "t" [] ["/music/one.mp3"] false, .mk "t" [] ["/music/two.mp3"]
          false] [] false] [] false] = false
    simp [forest_distinct_all_levels, forest_each_distinct,
      labels_pairwise_distinct, TagTreeNode.label]

/-- Claim C9 (amended): sibling labels are unique at every *category*
level of the aggregated forests (genre, creator, album) — the nested
map merges same-label entries there; track/leaf siblings are one node
per file occurrence and may repeat a label. -/
theorem category_level_labels_unique (files : List WalkedFile)
    (allowed_extensions : List String) :
    forest_distinct_to_depth 3
        (build_genre_tag_tree files allowed_extensions) = true ∧
      forest_distinct_to_depth 2
        (build_creator_tag_tree files allowed_extensions) = true := by
  constructor
  · exact sorted_to_depth_distinct 3 _
      (genre_nodes_sorted _
        (fold_genre_inv allowed_extensions files []
          ⟨List.Pairwise.nil, by simp⟩))
  · exact sorted_to_depth_distinct 2 _
      (artist_nodes_sorted _
        (fold_creator_inv allowed_extensions files []
          ⟨List.Pairwise.nil, by simp⟩))

/-- Claim C8: both builders create exactly one leaf track node per
matching file occurrence (total stored paths equal the number of
matching files), every childless node carries a singleton `file_paths`
and every category node carries none; two distinct files collapsing to
the same (genre/creator, album, title) key yield two duplicate sibling
track nodes, never one node with two paths. -/
theorem build_one_leaf_per_file_with_singleton_paths
    (files : List WalkedFile) (allowed_extensions : List String) :
    forest_track_shape (build_genre_tag_tree files allowed_extensions) =
        true ∧
      forest_path_count (build_genre_tag_tree files allowed_extensions) =
        (files.filter
          (file_matches_build_filter allowed_extensions)).length ∧
      forest_track_shape
          (build_creator_tag_tree files allowed_extensions) = true ∧
      forest_path_count
          (build_creator_tag_tree files allowed_extensions) =
        (files.filter
          (file_matches_build_filter allowed_extensions)).length ∧
      build_genre_tag_tree [dupTitleOne, dupTitleTwo] ["mp3"] =
        [.mk "Unknown" [.mk "Unknown" [.mk "Unknown"
          [.mk "t" [] ["/music/one.mp3"] false,
            .mk "t" [] ["/music/two.mp3"] false] [] false] [] false]
          [] false] := by
  refine ⟨?_, ?_, ?_, ?_, rfl⟩
  · exact genre_nodes_shape _
      (fold_genre_inv allowed_extensions files []
        ⟨List.Pairwise.nil, by simp⟩).2
  · unfold build_genre_tag_tree
    rw [genre_nodes_count, fold_genre_tracks]
    simp [genre_map_tracks, vals_sum]
  · exact artist_nodes_shape _
      (fold_creator_inv allowed_extensions files []
        ⟨List.Pairwise.nil, by simp⟩).2
  · unfold build_creator_tag_tree
    rw [artist_nodes_count, fold_creator_tracks]
    simp [artist_map_tracks, vals_sum]

/-- Claim C6: with a matching extension, a file's missing metadata
fields fall back to placeholders — absent genre, creator or album
become the label "Unknown" and an absent title becomes the file's base
name with its extension; this holds for arbitrary metadata, in
particular for the all-absent record a failed extraction produces, so a
single unreadable or untaggable file still appears and never aborts the
build. -/
theorem build_missing_metadata_placeholders (f : WalkedFile)
    (allowed_extensions : List String) (ext : String)
    (h₁ : fileExtension f.file_name = some ext)
    (h₂ : allowed_extensions.any (fun ae => ae == ext) = true) :
    build_genre_tag_tree [f] allowed_extensions =
        [.mk (f.metadata.genre.getD "Unknown")
          [.mk (f.metadata.creator.getD "Unknown")
            [.mk (f.metadata.album.getD "Unknown")
              [.mk (f.metadata.title.getD f.file_name) [] [f.path] false]
              [] false] [] false] [] false] ∧
      build_creator_tag_tree [f] allowed_extensions =
        [.mk (f.metadata.creator.getD "Unknown")
          [.mk (f.metadata.album.getD "Unknown")
            [.mk (f.metadata.title.getD f.file_name) [] [f.path] false]
            [] false] [] false] := by
  constructor
  · simp [build_genre_tag_tree, genre_insert_file, h₁, h₂, btreeUpdate,
      genre_nodes, artist_nodes, album_nodes, track_nodes]
  · simp [build_creator_tag_tree, creator_insert_file, h₁, h₂, btreeUpdate,
      artist_nodes, album_nodes, track_nodes]

/-- Claim C6, witness: the all-absent file `y.mp3` lands under
`Unknown → Unknown → Unknown` with its file name as the track label. -/
theorem build_missing_metadata_placeholders_witness :
    fileExtension fileYMP3.file_name = some "mp3" ∧
      (["mp3"].any (fun ae => ae == "mp3")) = true ∧
      build_genre_tag_tree [fileYMP3] ["mp3"] =
        [.mk "Unknown" [.mk "Unknown" [.mk "Unknown"
          [.mk "y.mp3" [] ["/lib/y.mp3"] false] [] false] [] false]
          [] false] := by
  refine ⟨rfl, rfl, ?_⟩
  exact (build_missing_metadata_placeholders fileYMP3 ["mp3"] "mp3"
    rfl rfl).1

/-- Claim C10: the builders include a file only when its extension is
byte-for-byte equal to some entry of `allowed_extensions` (a single-file
build is non-empty exactly when the exact-match filter accepts the
file); in particular `A.MP3` under filter `["mp3"]` builds an empty
forest even though `scan_directory` would match it case-insensitively. -/
theorem build_requires_exact_extension_match
    (allowed_extensions : List String) (f : WalkedFile) :
    (build_genre_tag_tree [f] allowed_extensions).isEmpty =
        !(file_matches_build_filter allowed_extensions f) ∧
      (build_creator_tag_tree [f] allowed_extensions).isEmpty =
        !(file_matches_build_filter allowed_extensions f) ∧
      build_genre_tag_tree [fileAMP3] ["mp3"] = [] ∧
      (scan_directory (FsEntry.dir "lib" [FsEntry.file "A.MP3"])
        ["mp3"]).isSome = true := by
  refine ⟨?_, ?_, rfl, ?_⟩
  · unfold build_genre_tag_tree genre_insert_file file_matches_build_filter
    simp only [List.foldl_cons, List.foldl_nil]
    cases h : fileExtension f.file_name with
    | none => simp [genre_nodes]
    | some ext =>
      by_cases hc : allowed_extensions.any (fun ae => ae == ext)
      · simp [hc, btreeUpdate, genre_nodes]
      · simp [hc, genre_nodes]
  · unfold build_creator_tag_tree creator_insert_file
      file_matches_build_filter
    simp only [List.foldl_cons, List.foldl_nil]
    cases h : fileExtension f.file_name with
    | none => simp [artist_nodes]
    | some ext =>
      by_cases hc : allowed_extensions.any (fun ae => ae == ext)
      · simp [hc, btreeUpdate, artist_nodes]
      · simp [hc, artist_nodes]
  · simp [scan_directory, scan_directory_with_expansion,
      scan_dir_node_isSome, any_match_in]
    decide

theorem decNat_encNat : ∀ (n : Nat) (rest : List Nat),
    decNat (encNat n ++ rest) = some (n, rest) := by
  intro n
  induction n using Nat.strong_induction_on with
  | _ n ih =>
    intro rest
    unfold encNat
    by_cases h : n < 128
    · simp [h, decNat]
    · have hrec := ih (n / 128) (Nat.div_lt_self (by omega) (by omega)) rest
      simp only [h, if_false, List.cons_append, decNat]
      have hb : ¬ (n % 128 + 128 < 128) := by omega
      simp only [hb, if_false, hrec]
      have : n / 128 * 128 + (n % 128 + 128 - 128) = n := by omega
      rw [this]

theorem encNat_length_pos (n : Nat) : 1 ≤ (encNat n).length := by
  unfold encNat
  by_cases h : n < 128 <;> simp [h]

theorem decChars_encChars : ∀ (cs : List Char) (rest : List Nat),
    decChars cs.length (encChars cs ++ rest) = some (cs, rest)
  | [], rest => by simp [encChars, decChars]
  | c :: cs, rest => by
    simp only [encChars, List.length_cons, decChars, List.append_assoc,
      decNat_encNat, decChars_encChars cs rest]
    rw [Char.ofNat_toNat]

theorem decString_encString (s : String) (rest : List Nat) :
    decString (encString s ++ rest) = some (s, rest) := by
  unfold encString decString
  rw [List.append_assoc]
  simp only [decNat_encNat, decChars_encChars]

theorem encString_length_pos (s : String) : 1 ≤ (encString s).length := by
  unfold encString
  have := encNat_length_pos s.data.length
  simp only [List.length_append]
  omega

theorem decStringsN_encStrings : ∀ (l : List String) (rest : List Nat),
    decStringsN l.length (encStrings l ++ rest) = some (l, rest)
  | [], rest => by simp [encStrings, decStringsN]
  | s :: l, rest => by
    simp only [encStrings, List.length_cons, decStringsN, List.append_assoc,
      decString_encString, decStringsN_encStrings l rest]

theorem decStringList_encStringList (l : List String) (rest : List Nat) :
    decStringList (encStringList l ++ rest) = some (l, rest) := by
  unfold encStringList decStringList
  rw [List.append_assoc]
  simp only [decNat_encNat, decStringsN_encStrings]

theorem encStringList_length_pos (l : List String) :
    1 ≤ (encStringList l).length := by
  unfold encStringList
  have := encNat_length_pos l.length
  simp only [List.length_append]
  omega

theorem decBool_encBool (b : Bool) (rest : List Nat) :
    decBool (encBool b ++ rest) = some (b, rest) := by
  cases b <;> simp [encBool, decBool]

mutual

theorem nodeSize_lt_encNode :
    ∀ x : TagTreeNode, nodeSize x + 1 ≤ (encNode x).length
  | .mk l cs ps e => by
    have hcs := nodesSize_le_encNodes cs
    have h₁ := encString_length_pos l
    have h₂ := encNat_length_pos cs.length
    have h₃ := encStringList_length_pos ps
    simp only [nodeSize, encNode, List.length_append, encBool,
      List.length_singleton]
    omega

theorem nodesSize_le_encNodes :
    ∀ xs : List TagTreeNode, nodesSize xs ≤ (encNodes xs).length
  | [] => by simp [nodesSize, encNodes]
  | x :: xs => by
    have hx := nodeSize_lt_encNode x
    have hxs := nodesSize_le_encNodes xs
    simp only [nodesSize, encNodes, List.length_append]
    omega

end

mutual

theorem decNode_encNode :
    ∀ (x : TagTreeNode) (fuel : Nat) (rest : List Nat),
      nodeSize x < fuel →
        decNode fuel (encNode x ++ rest) = some (x, rest)
  | .mk l cs ps e, fuel, rest, h => by
    have hsz : nodesSize cs ≤ fuel - 1 := by
      simp only [nodeSize] at h
      omega
    cases fuel with
    | zero => simp [nodeSize] at h
    | succ fuel =>
      have hdec := decNodesN_encNodes cs fuel
        (encStringList ps ++ (encBool e ++ rest)) (by omega)
      simp only [encNode, decNode, List.append_assoc,
        decString_encString, decNat_encNat, hdec,
        decStringList_encStringList, decBool_encBool]

theorem decNodesN_encNodes :
    ∀ (xs : List TagTreeNode) (fuel : Nat) (rest : List Nat),
      nodesSize xs ≤ fuel →
        decNodesN fuel xs.length (encNodes xs ++ rest) = some (xs, rest)
  | [], fuel, rest, _ => by simp [encNodes, decNodesN]
  | x :: xs, fuel, rest, h => by
    have hx : nodeSize x < fuel := by
      simp only [nodesSize] at h
      omega
    have hxs : nodesSize xs ≤ fuel := by
      simp only [nodesSize] at h
      omega
    simp only [encNodes, List.length_cons, decNodesN, List.append_assoc,
      decNode_encNode x fuel (encNodes xs ++ rest) hx,
      decNodesN_encNodes xs fuel rest hxs]

end

theorem decodeForest_encodeForest (ns : List TagTreeNode) :
    decodeForest (encodeForest ns) = some ns := by
  unfold encodeForest decodeForest
  simp only [decNat_encNat]
  have hfuel : nodesSize ns ≤
      (encNat ns.length ++ encNodes ns).length := by
    have h₁ := encNat_length_pos ns.length
    have h₂ := nodesSize_le_encNodes ns
    simp only [List.length_append]
    omega
  have h := decNodesN_encNodes ns
    (encNat ns.length ++ encNodes ns).length [] hfuel
  rw [List.append_nil] at h
  simp only [h]

theorem lookup_filter_out_key {V : Type} (k : String) :
    ∀ l : List (String × V),
      List.lookup k (l.filter (fun p => !(p.1 == k))) = none
  | [] => rfl
  | (k₂, v) :: rest => by
    by_cases h : k₂ = k
    · subst h
      simp [List.filter_cons, lookup_filter_out_key k₂ rest]
    · have hb : (k₂ == k) = false := by simp [h]
      have hb₂ : (k == k₂) = false := by
        simp only [beq_eq_false_iff_ne, ne_eq]
        intro he
        exact h he.symm
      simp [List.filter_cons, hb, List.lookup, hb₂,
        lookup_filter_out_key k rest]

/-- Claim C4: saving a forest under a hierarchy kind and then loading
that same kind returns a forest equal to the one saved, for every prior
store state and every forest (empty, single-level or arbitrarily
nested). -/
theorem save_then_load_roundtrip (s : SledStore)
    (roots : List TagTreeNode) :
    load_genre_tag_tree (save_genre_tag_tree s roots) = some roots ∧
      load_creator_tag_tree (save_creator_tag_tree s roots) =
        some roots := by
  constructor <;>
    simp [load_genre_tag_tree, save_genre_tag_tree,
      load_creator_tag_tree, save_creator_tag_tree, SledStore.get,
      SledStore.put, List.lookup, decodeForest_encodeForest]

/-- Claim C5: loading a hierarchy kind yields `none` — and, being
`Option`-valued in the model exactly as in the source (every store
error is absorbed by `.ok()`), never an error — both when nothing is
stored under that kind's key and when the stored bytes fail to decode
as a forest. -/
theorem load_absent_or_undecodable_none (s : SledStore) :
    (s.get "tag_tree" = none → load_genre_tag_tree s = none) ∧
      (∀ bs, s.get "tag_tree" = some bs → decodeForest bs = none →
        load_genre_tag_tree s = none) ∧
      (s.get "creator_tag_tree" = none →
        load_creator_tag_tree s = none) ∧
      (∀ bs, s.get "creator_tag_tree" = some bs → decodeForest bs = none →
        load_creator_tag_tree s = none) := by
  refine ⟨?_, ?_, ?_, ?_⟩
  · intro h
    simp [load_genre_tag_tree, h]
  · intro bs h₁ h₂
    simp [load_genre_tag_tree, h₁, h₂]
  · intro h
    simp [load_creator_tag_tree, h]
  · intro bs h₁ h₂
    simp [load_creator_tag_tree, h₁, h₂]

/-- Claim C5, witness: a never-written store and a store holding the
undecodable blob `[251]` under both keys all load as `none`. -/
theorem load_absent_or_undecodable_none_witness :
    load_genre_tag_tree emptyStore = none ∧
      load_creator_tag_tree emptyStore = none ∧
      load_genre_tag_tree garbageStore = none ∧
      load_creator_tag_tree garbageStore = none := by
  refine ⟨?_, ?_, ?_, ?_⟩
  · exact (load_absent_or_undecodable_none emptyStore).1 rfl
  · exact (load_absent_or_undecodable_none emptyStore).2.2.1 rfl
  · exact (load_absent_or_undecodable_none garbageStore).2.1 [251] rfl rfl
  · exact (load_absent_or_undecodable_none garbageStore).2.2.2 [251]
      rfl rfl

/-- Claim C7: for both hierarchy kinds, clearing removes the stored
record, so the next load of that same kind returns `none` (the source
implements the clear only for the genre kind; the creator-kind clear is
modelled from the spec's `clear(kind)` contract). -/
theorem clear_then_load_none (s : SledStore) :
    load_genre_tag_tree (clear_genre_tree s) = none ∧
      load_creator_tag_tree (clear_creator_tree s) = none := by
  constructor <;>
    simp [load_genre_tag_tree, clear_genre_tree, load_creator_tag_tree,
      clear_creator_tree, SledStore.get, SledStore.remove,
      lookup_filter_out_key]
